import Mathlib

/-!
Shallow embedding of `examples/bayesian_linear_regression.py` (edward).

Tensors are modelled as a (shape, flat row-major data) pair over `ℚ`;
`tf.squeeze` removes every dimension of size 1 and leaves the flat data
unchanged, exactly as TensorFlow does.  The parts of the edward library that
the script calls but that are not under `src/` (`ed.set_seed`, `ed.MFGaussian`,
`ed.MFVI`, `edward.stats.norm.rvs`) are modelled from the spec and are marked
as such in their doc comments.
-/

namespace BLR

/-- A tensor: its shape and its flat row-major data. -/
structure Tensor where
  shape : List Nat
  data : List ℚ
deriving Repr, DecidableEq

/-- `tf.squeeze`: removes all dimensions of size 1; the flat data is unchanged. -/
def squeeze (t : Tensor) : Tensor :=
  ⟨t.shape.filter (fun d => d ≠ 1), t.data⟩

/-- `LinearModel.__init__`: stores `weight_dim`, `lik_variance` (default `0.01`)
and `prior_variance` (default `0.01`). -/
structure LinearModel where
  weight_dim : List Nat
  lik_variance : ℚ := 1 / 100
  prior_variance : ℚ := 1 / 100
deriving Repr, DecidableEq

/-- `self.num_vars = (self.weight_dim[0]+1)*self.weight_dim[1]`. -/
def LinearModel.num_vars (M : LinearModel) : Nat :=
  (M.weight_dim.getD 0 0 + 1) * M.weight_dim.getD 1 0

/-- `LinearModel.mapping(x, z)`: reshape `z[:m*n]` to the `m × n` matrix `W`
and `z[m*n:]` to the `1 × n` bias `b`, compute `tf.matmul(x, W) + b`
(broadcasting `b` over the batch) and squeeze the result. -/
def LinearModel.mapping (M : LinearModel) (x : Tensor) (z : List ℚ) : Tensor :=
  let m := M.weight_dim.getD 0 0
  let n := M.weight_dim.getD 1 0
  let W := z.take (m * n)
  let b := z.drop (m * n)
  let k := x.shape.getD 0 0
  let h := (List.range k).flatMap (fun i =>
    (List.range n).map (fun j =>
      ((List.range m).map (fun l => x.data.getD (i * m + l) 0 * W.getD (l * n + j) 0)).sum
        + b.getD j 0))
  squeeze ⟨[k, n], h⟩

/-- `y = xs[:, 0]`: the dataset's output column. -/
def outputCol (xs : List (List ℚ)) : List ℚ :=
  xs.map (fun r => r.getD 0 0)

/-- `x = xs[:, 1:]`: the dataset's input columns, as a
`n_data × D` tensor (each row of `xs` has `D + 1` entries). -/
def inputCols (xs : List (List ℚ)) : Tensor :=
  ⟨[xs.length, (xs.headD []).length - 1], (xs.map (fun r => r.drop 1)).flatten⟩

/-- `LinearModel.log_prob(xs, zs)`: the unnormalized log joint density, a
vector with one entry per row of `zs`:
`log_prior = -prior_variance * reduce_sum(zs*zs, 1)`,
`mus = pack([mapping(x, z) for z in unpack(zs)])`,
`log_lik = -reduce_sum(pow(mus - y, 2), 1) / lik_variance`,
returning `log_lik + log_prior`. -/
def LinearModel.log_prob (M : LinearModel) (xs : List (List ℚ)) (zs : List (List ℚ)) :
    List ℚ :=
  let y := outputCol xs
  let x := inputCols xs
  let log_prior := zs.map (fun z => -M.prior_variance * (z.map (fun a => a * a)).sum)
  let mus := zs.map (fun z => (M.mapping x z).data)
  let log_lik := mus.map (fun mu =>
    -((mu.zip y).map (fun p => (p.1 - p.2) ^ 2)).sum / M.lik_variance)
  List.zipWith (fun a b => a + b) log_lik log_prior

/-- The single-row log joint density computed by `log_prob`: the entry of
`log_prob xs zs` that corresponds to one sampled weight vector `z`. -/
def LinearModel.logJoint (M : LinearModel) (xs : List (List ℚ)) (z : List ℚ) : ℚ :=
  -(((M.mapping (inputCols xs) z).data.zip (outputCol xs)).map
      (fun p => (p.1 - p.2) ^ 2)).sum / M.lik_variance
    + -M.prior_variance * (z.map (fun a => a * a)).sum

/-- Flat length of a `flatMap` whose pieces all have the same length. -/
lemma length_flatMap_const {α β : Type} (l : List α) (f : α → List β) (c : Nat)
    (h : ∀ a ∈ l, (f a).length = c) : (l.flatMap f).length = l.length * c := by
  induction l with
  | nil => simp
  | cons a l ih =>
      simp only [List.flatMap_cons, List.length_append, List.length_cons]
      rw [h a (by simp), ih (fun b hb => h b (by simp [hb]))]
      ring

/-- The flat data of `mapping` has one entry per (batch row, output column) pair. -/
lemma mapping_data_length (M : LinearModel) (x : Tensor) (z : List ℚ) :
    (M.mapping x z).data.length = x.shape.getD 0 0 * M.weight_dim.getD 1 0 := by
  unfold LinearModel.mapping squeeze
  simp only []
  rw [length_flatMap_const _ _ (M.weight_dim.getD 1 0) (by simp)]
  simp

example :
    ((LinearModel.mk [1, 1] (1/100) (1/100)).mapping ⟨[2, 1], [1, 2]⟩ [3, 5]).data
      = [8, 11] := by
  norm_num [LinearModel.mapping, squeeze, List.range_succ]

example :
    ((LinearModel.mk [1, 1] (1/100) (1/100)).mapping ⟨[2, 1], [1, 2]⟩ [3, 5]).shape
      = [2] := by decide

example :
    ((LinearModel.mk [1, 1] (1/100) (1/100)).mapping ⟨[1, 1], [1]⟩ [3, 5]).shape
      = [] := by decide

example :
    (LinearModel.mk [1, 1] 1 1).log_prob [[1, 2], [0, 1]] [[1, 0]] = [-(3 : ℚ)] := by
  norm_num [LinearModel.log_prob, LinearModel.mapping, squeeze, outputCol, inputCols,
    List.range_succ]

/-- `log_prob` has one entry per row of `zs`. -/
lemma log_prob_length (M : LinearModel) (xs zs : List (List ℚ)) :
    (M.log_prob xs zs).length = zs.length := by
  simp [LinearModel.log_prob]

/-- The `i`-th entry of `log_prob` is the log joint density of `xs` and row `i`. -/
lemma log_prob_getD (M : LinearModel) (xs zs : List (List ℚ)) (i : Nat)
    (hi : i < zs.length) :
    (M.log_prob xs zs).getD i 0 = M.logJoint xs (zs.getD i []) := by
  have h1 : i < (M.log_prob xs zs).length := by rw [log_prob_length]; exact hi
  rw [List.getD_eq_getElem _ _ h1, List.getD_eq_getElem _ _ hi]
  simp [LinearModel.log_prob, LinearModel.logJoint, List.getElem_zipWith]

/-- Sum of squared differences over a `zip` as a `Finset.range` sum. -/
lemma zip_sq_sum_eq_range (a b : List ℚ) (h : a.length = b.length) :
    ((a.zip b).map (fun p => (p.1 - p.2) ^ 2)).sum
      = ∑ j ∈ Finset.range a.length, (a.getD j 0 - b.getD j 0) ^ 2 := by
  induction a generalizing b with
  | nil => simp
  | cons x xs ih =>
      cases b with
      | nil => simp at h
      | cons y ys =>
          simp only [List.zip_cons_cons, List.map_cons, List.sum_cons, List.length_cons]
          rw [Finset.sum_range_succ']
          simp only [List.getD_cons_succ, List.getD_cons_zero]
          rw [ih ys (by simpa using h)]
          ring

/-- C1: the `i`-th entry of `log_prob xs zs` equals
`log_likelihood + log_prior`, where the unnormalized log prior of `z = zs[i]`
is `-prior_variance * sum(z^2)` and the unnormalized log likelihood is
`-sum((mu - y)^2) / lik_variance` over all data points, with
`mu = mapping(x, z)` on the input columns and `y` the output column. -/
theorem C1_log_prob (M : LinearModel) (m : Nat) (xs zs : List (List ℚ)) (i : Nat)
    (hwd : M.weight_dim = [m, 1])
    (hxs : ∀ r ∈ xs, r.length = m + 1)
    (hzs : ∀ z ∈ zs, z.length = M.num_vars)
    (hi : i < zs.length) :
    (M.log_prob xs zs).getD i 0
      = -(∑ j ∈ Finset.range xs.length,
            ((M.mapping (inputCols xs) (zs.getD i [])).data.getD j 0
              - (outputCol xs).getD j 0) ^ 2) / M.lik_variance
        + -M.prior_variance * ((zs.getD i []).map (fun a => a * a)).sum := by
  rw [log_prob_getD M xs zs i hi]
  unfold LinearModel.logJoint
  have hmlen : (M.mapping (inputCols xs) (zs.getD i [])).data.length = xs.length := by
    rw [mapping_data_length, hwd]; simp [inputCols]
  have hlen : (M.mapping (inputCols xs) (zs.getD i [])).data.length
      = (outputCol xs).length := by
    rw [hmlen]; simp [outputCol]
  rw [zip_sq_sum_eq_range _ _ hlen, hmlen]

theorem C1_log_prob_witness :
    ((LinearModel.mk [1, 1] 1 1).log_prob [[1, 2]] [[1, 0]]).getD 0 0
      = -(∑ j ∈ Finset.range ([[(1 : ℚ), 2]]).length,
            (((LinearModel.mk [1, 1] 1 1).mapping (inputCols [[1, 2]])
                (([[(1 : ℚ), 0]]).getD 0 [])).data.getD j 0
              - (outputCol [[1, 2]]).getD j 0) ^ 2) / 1
        + -1 * ((([[(1 : ℚ), 0]]).getD 0 []).map (fun a => a * a)).sum :=
  C1_log_prob (LinearModel.mk [1, 1] 1 1) 1 [[1, 2]] [[1, 0]] 0 rfl
    (by simp) (by simp [LinearModel.num_vars]) (by decide)

/-- C5: `log_prob xs zs` has length exactly `n_minibatch = zs.length`, and its
`i`-th entry is the unnormalized joint log-density of the dataset and `zs[i]`. -/
theorem C5_log_prob_length (M : LinearModel) (xs zs : List (List ℚ)) (i : Nat)
    (hmb : 1 ≤ zs.length)
    (hzs : ∀ z ∈ zs, z.length = M.num_vars)
    (hi : i < zs.length) :
    (M.log_prob xs zs).length = zs.length
      ∧ (M.log_prob xs zs).getD i 0 = M.logJoint xs (zs.getD i []) :=
  ⟨log_prob_length M xs zs, log_prob_getD M xs zs i hi⟩

theorem C5_log_prob_length_witness :
    ((LinearModel.mk [1, 1] 1 1).log_prob [[1, 2]] [[1, 0]]).length
        = ([[(1 : ℚ), 0]]).length
      ∧ ((LinearModel.mk [1, 1] 1 1).log_prob [[1, 2]] [[1, 0]]).getD 0 0
        = (LinearModel.mk [1, 1] 1 1).logJoint [[1, 2]] (([[(1 : ℚ), 0]]).getD 0 []) :=
  C5_log_prob_length (LinearModel.mk [1, 1] 1 1) [[1, 2]] [[1, 0]] 0
    (by decide) (by simp [LinearModel.num_vars]) (by decide)

/-- C10: `prior_variance` acts as a multiplicative penalty coefficient: for
two models identical except a larger `prior_variance`, and a weight row with
`sum(z^2) > 0`, the larger `prior_variance` gives the strictly smaller
`log_prob` entry. -/
theorem C10_prior_variance_penalty (M1 M2 : LinearModel) (xs zs : List (List ℚ))
    (i : Nat)
    (hwd : M2.weight_dim = M1.weight_dim)
    (hlik : M2.lik_variance = M1.lik_variance)
    (hp : M1.prior_variance < M2.prior_variance)
    (hi : i < zs.length)
    (hz : 0 < ((zs.getD i []).map (fun a => a * a)).sum) :
    (M2.log_prob xs zs).getD i 0 < (M1.log_prob xs zs).getD i 0 := by
  rw [log_prob_getD M1 xs zs i hi, log_prob_getD M2 xs zs i hi]
  unfold LinearModel.logJoint
  have hmap : M2.mapping (inputCols xs) (zs.getD i [])
      = M1.mapping (inputCols xs) (zs.getD i []) := by
    unfold LinearModel.mapping; rw [hwd]
  rw [hmap, hlik]
  have hmul := mul_lt_mul_of_pos_right hp hz
  linarith

theorem C10_prior_variance_penalty_witness :
    ((LinearModel.mk [1, 1] 1 2).log_prob [[1, 2]] [[1, 0]]).getD 0 0
      < ((LinearModel.mk [1, 1] 1 1).log_prob [[1, 2]] [[1, 0]]).getD 0 0 :=
  C10_prior_variance_penalty (LinearModel.mk [1, 1] 1 1) (LinearModel.mk [1, 1] 1 2)
    [[1, 2]] [[1, 0]] 0 rfl rfl (by norm_num) (by decide) (by norm_num)

/-- C2: for every `weight_dim = [m, n]` with `m, n` positive, a `LinearModel`
constructed with that `weight_dim` has `num_vars = (m + 1) * n`. -/
theorem C2_num_vars (m n : Nat) (lv pv : ℚ) (hm : 0 < m) (hn : 0 < n) :
    (LinearModel.mk [m, n] lv pv).num_vars = (m + 1) * n := by
  simp [LinearModel.num_vars]

theorem C2_num_vars_witness :
    (LinearModel.mk [1, 1] (1/100) (1/100)).num_vars = (1 + 1) * 1 :=
  C2_num_vars 1 1 (1/100) (1/100) (by decide) (by decide)

/-- C3 counterexample: at batch size `k = 1` (with `m = n = 1`), `tf.squeeze`
removes the batch dimension as well, so `mapping` returns a scalar of shape
`[]`, not the claimed shape `(k,) = [1]`. -/
theorem C3_counterexample :
    ((LinearModel.mk [1, 1] (1/100) (1/100)).mapping ⟨[1, 1], [0]⟩ [0, 0]).shape
      ≠ (if (1 : Nat) = 1 then [1] else [1, 1]) := by decide

/-- C3 (amended): for every input batch `x` of shape `(k, m)` with `k ≥ 2` and
every weight vector `z` of length `(m+1)*n`, `mapping x z` has shape `(k,)`
when `n = 1` and `(k, n)` otherwise.  (For `k = 1` the squeeze collapses the
batch dimension too, so the original claim fails.) -/
theorem C3_mapping_shape (M : LinearModel) (m n k : Nat) (x : Tensor) (z : List ℚ)
    (hwd : M.weight_dim = [m, n]) (hn : 0 < n) (hk : 2 ≤ k)
    (hx : x.shape = [k, m]) (hz : z.length = (m + 1) * n) :
    (M.mapping x z).shape = if n = 1 then [k] else [k, n] := by
  have hk1 : k ≠ 1 := by omega
  by_cases h1 : n = 1 <;>
    simp [LinearModel.mapping, squeeze, hwd, hx, List.filter, hk1, h1]

theorem C3_mapping_shape_witness :
    ((LinearModel.mk [1, 1] (1/100) (1/100)).mapping ⟨[2, 1], [1, 2]⟩ [3, 5]).shape
      = if (1 : Nat) = 1 then [2] else [2, 1] :=
  C3_mapping_shape _ 1 1 2 _ _ rfl (by decide) (by decide) rfl (by decide)

/-- Modelled from the spec: the global random-number-generator state of the
edward library (`ed.set_seed` and `edward.stats` are not under `src/`).  The
state records the current seed and how many draws have been consumed. -/
structure RngState where
  seed : Nat
  pos : Nat
deriving Repr, DecidableEq

/-- Modelled from the spec: `ed.set_seed(s)` resets the global generator to
seed `s` with no draws consumed. -/
def set_seed (s : Nat) : RngState := ⟨s, 0⟩

/-- Modelled from the spec: `norm.rvs(loc, scale, size)` draws `size`
values `loc + scale * standard_normal()` from the global generator and
advances it.  The standard-normal stream is abstracted as a function
`stdDraw : seed → position → ℚ`. -/
def rvs (stdDraw : Nat → Nat → ℚ) (loc scale : ℚ) (size : Nat) (st : RngState) :
    List ℚ × RngState :=
  ((List.range size).map (fun i => loc + scale * stdDraw st.seed (st.pos + i)),
   ⟨st.seed, st.pos + size⟩)

/-- `np.linspace(a, b, num)`: `num` evenly spaced points from `a` to `b`;
for `num = 1` the single point is `a`, for `num = 0` the list is empty. -/
def linspace (a b : ℚ) (num : Nat) : List ℚ :=
  if num ≤ 1 then List.replicate num a
  else (List.range num).map (fun (i : Nat) => a + (i : ℚ) * (b - a) / ((num : ℚ) - 1))

/-- `build_toy_dataset(n_data, noise_std)`: calls `ed.set_seed(0)`, builds
inputs `x = concat(linspace(0, 2, n_data/2), linspace(6, 8, n_data/2))`,
outputs `y = 0.075*x + norm.rvs(0, noise_std, size=n_data)`, rescales
`x = (x - 4.0) / 4.0` and returns the matrix with rows `[y_i, x_i]`, paired
with the generator state the call leaves behind. -/
def build_toy_dataset (stdDraw : Nat → Nat → ℚ) (st : RngState)
    (n_data : Nat) (noise_std : ℚ) : List (List ℚ) × RngState :=
  let st0 := set_seed 0
  let x0 := linspace 0 2 (n_data / 2) ++ linspace 6 8 (n_data / 2)
  let draws := rvs stdDraw 0 noise_std n_data st0
  let y := List.zipWith (fun xi ei => 3/40 * xi + ei) x0 draws.1
  let x := x0.map (fun v => (v - 4) / 4)
  (List.zipWith (fun yi xi => [yi, xi]) y x, draws.2)

lemma linspace_length (a b : ℚ) (num : Nat) : (linspace a b num).length = num := by
  by_cases h : num ≤ 1
  · simp [linspace, h]
  · rw [linspace, if_neg h, List.length_map, List.length_range]

example :
    build_toy_dataset (fun _ i => (i : ℚ)) ⟨7, 3⟩ 4 (1/10)
      = ([[0, -1], [1/10 + 3/20, -1/2], [1/5 + 9/20, 1/2], [3/10 + 3/5, 1]],
         ⟨0, 4⟩) := by
  norm_num [build_toy_dataset, set_seed, rvs, linspace, List.range_succ]

/-- C4: for every even `n` and noise std `σ`, the generated dataset has
exactly `n` rows; the pre-rescaling inputs are the `n/2` points of
`linspace 0 2 (n/2)` followed by the `n/2` points of `linspace 6 8 (n/2)`;
row `i` is `[0.075 * x_i + σ * noise_i, (x_i - 4) / 4]` with the noise drawn
from seed `0` and the stored input rescaled. -/
theorem C4_build_toy_dataset (f : Nat → Nat → ℚ) (st : RngState) (n : Nat) (σ : ℚ)
    (i : Nat) (hn : n % 2 = 0) (hi : i < n) :
    ((build_toy_dataset f st n σ).1).length = n
      ∧ (linspace 0 2 (n / 2)).length = n / 2
      ∧ (linspace 6 8 (n / 2)).length = n / 2
      ∧ (build_toy_dataset f st n σ).1.getD i []
        = [3/40 * (linspace 0 2 (n / 2) ++ linspace 6 8 (n / 2)).getD i 0 + σ * f 0 i,
           ((linspace 0 2 (n / 2) ++ linspace 6 8 (n / 2)).getD i 0 - 4) / 4] := by
  have hx0 : (linspace 0 2 (n / 2) ++ linspace 6 8 (n / 2)).length = n := by
    simp only [List.length_append, linspace_length]; omega
  have hlen : ((build_toy_dataset f st n σ).1).length = n := by
    simp only [build_toy_dataset, rvs, set_seed, List.length_zipWith, List.length_map,
      List.length_range, List.length_append, linspace_length]
    omega
  refine ⟨hlen, linspace_length _ _ _, linspace_length _ _ _, ?_⟩
  rw [List.getD_eq_getElem _ _ (by rw [hlen]; exact hi),
    List.getD_eq_getElem _ _ (by rw [hx0]; exact hi)]
  simp only [build_toy_dataset, rvs, set_seed, List.getElem_zipWith, List.getElem_map,
    List.getElem_range]
  norm_num

theorem C4_build_toy_dataset_witness :
    ((build_toy_dataset (fun s j => (s : ℚ) + j) ⟨7, 3⟩ 2 (1/10)).1).length = 2
      ∧ (linspace 0 2 (2 / 2)).length = 2 / 2
      ∧ (linspace 6 8 (2 / 2)).length = 2 / 2
      ∧ (build_toy_dataset (fun s j => (s : ℚ) + j) ⟨7, 3⟩ 2 (1/10)).1.getD 0 []
        = [3/40 * (linspace 0 2 (2 / 2) ++ linspace 6 8 (2 / 2)).getD 0 0
             + 1/10 * ((0 : ℚ) + 0),
           ((linspace 0 2 (2 / 2) ++ linspace 6 8 (2 / 2)).getD 0 0 - 4) / 4] :=
  C4_build_toy_dataset (fun s j => (s : ℚ) + j) ⟨7, 3⟩ 2 (1/10) 0
    (by decide) (by decide)

/-- C9: `build_toy_dataset` resets the global seed to `0` before drawing
noise, so its result is independent of the incoming generator state, and the
state it leaves behind (`seed 0`, `n` draws consumed) overwrites whatever
seed the caller had set. -/
theorem C9_build_toy_dataset_seed_reset (f : Nat → Nat → ℚ) (s1 s2 : RngState)
    (n : Nat) (σ : ℚ) :
    build_toy_dataset f s1 n σ = build_toy_dataset f s2 n σ
      ∧ (build_toy_dataset f s1 n σ).2 = ⟨0, n⟩ := by
  refine ⟨rfl, ?_⟩
  simp [build_toy_dataset, rvs, set_seed]

/-- Modelled from the spec: `ed.MFGaussian` (not under `src/`) — a mean-field
Gaussian variational family with a mean vector `m` and a strictly positive
standard-deviation vector `s`, both of length `num_vars`. -/
structure MFGaussian where
  num_vars : Nat
  m : List ℚ
  s : List ℚ
deriving Repr, DecidableEq

/-- Modelled from the spec: initial variational parameters — zero mean and
unit standard deviation in every dimension. -/
def MFGaussian.init (nv : Nat) : MFGaussian :=
  ⟨nv, List.replicate nv 0, List.replicate nv 1⟩

/-- Modelled from the spec: one parameter update step; the standard-deviation
update clips at a small positive floor, preserving the positivity invariant
(the spec leaves the enforcement mechanism as an implementation choice). -/
def MFGaussian.update (st : MFGaussian) (gm gs : List ℚ) : MFGaussian :=
  ⟨st.num_vars, List.zipWith (fun a g => a + g) st.m gm,
   List.zipWith (fun a g => max (1 / 1000000) (a + g)) st.s gs⟩

/-- Modelled from the spec: the sequence of variational states reached from
initialization when applying a given list of (mean, std) gradient updates. -/
def MFGaussian.trajectory (nv : Nat) (updates : List (List ℚ × List ℚ)) :
    List MFGaussian :=
  updates.scanl (fun st u => st.update u.1 u.2) (MFGaussian.init nv)

lemma zipWith_clip_pos (l gs : List ℚ) (v : ℚ)
    (hv : v ∈ List.zipWith (fun a g => max (1 / 1000000) (a + g)) l gs) : 0 < v := by
  induction l generalizing gs with
  | nil => simp at hv
  | cons a t ih =>
      cases gs with
      | nil => simp at hv
      | cons g gl =>
          simp only [List.zipWith_cons_cons, List.mem_cons] at hv
          rcases hv with h | h
          · rw [h]
            calc (0 : ℚ) < 1 / 1000000 := by norm_num
              _ ≤ max (1 / 1000000) (a + g) := le_max_left _ _
          · exact ih gl h

lemma mem_update_s_pos (st : MFGaussian) (gm gs : List ℚ) (v : ℚ)
    (hv : v ∈ (st.update gm gs).s) : 0 < v :=
  zipWith_clip_pos st.s gs v hv

lemma scanl_update_s_pos (updates : List (List ℚ × List ℚ)) (b st : MFGaussian)
    (hb : ∀ w ∈ b.s, (0 : ℚ) < w)
    (hst : st ∈ updates.scanl (fun st u => st.update u.1 u.2) b)
    (v : ℚ) (hv : v ∈ st.s) : 0 < v := by
  induction updates generalizing b st with
  | nil =>
      simp only [List.scanl_nil, List.mem_singleton] at hst
      exact hb v (hst ▸ hv)
  | cons u us ih =>
      simp only [List.scanl_cons, List.singleton_append, List.mem_cons] at hst
      rcases hst with h | h
      · exact hb v (h ▸ hv)
      · exact ih (b.update u.1 u.2) st
          (fun w hw => mem_update_s_pos b u.1 u.2 w hw) h hv

/-- C6: every variational state reached during the run — the initial state and
the state after every update step — has a strictly positive
standard-deviation vector. -/
theorem C6_std_positive (nv : Nat) (updates : List (List ℚ × List ℚ))
    (st : MFGaussian) (hst : st ∈ MFGaussian.trajectory nv updates)
    (v : ℚ) (hv : v ∈ st.s) : 0 < v := by
  unfold MFGaussian.trajectory at hst
  have hinit : ∀ w ∈ (MFGaussian.init nv).s, (0 : ℚ) < w := by
    intro w hw
    unfold MFGaussian.init at hw
    rw [List.eq_of_mem_replicate hw]
    norm_num
  exact scanl_update_s_pos updates (MFGaussian.init nv) st hinit hst v hv

theorem C6_std_positive_witness :
    (0 : ℚ) < 1 / 1000000 :=
  C6_std_positive 1 [([1], [-2])] ((MFGaussian.init 1).update [1] [-2])
    (by simp [MFGaussian.trajectory, List.scanl])
    (1 / 1000000)
    (by norm_num [MFGaussian.update, MFGaussian.init])

/-- `np.mean`: the arithmetic mean of a list of losses. -/
def np_mean (l : List ℚ) : ℚ := l.sum / l.length

/-- `print_progress(self, t, losses, sess)`: when `t % n_print == 0` it prints
the line `iter <t> loss <mean(losses)>` (and redraws the plot); otherwise it
emits nothing.  The emitted line is modelled as the pair `(t, mean losses)`. -/
def print_progress (n_print t : Nat) (losses : List ℚ) : Option (Nat × ℚ) :=
  if t % n_print = 0 then some (t, np_mean losses) else none

/-- C7: with a positive `n_print`, the progress line `iter <t> loss <mean>`
(with `<mean>` the mean of the iteration's loss estimates) is emitted exactly
at the iterations `t` divisible by `n_print`, and at no other iteration. -/
theorem C7_print_progress (n_print t : Nat) (losses : List ℚ) (hnp : 0 < n_print) :
    print_progress n_print t losses
      = if n_print ∣ t then some (t, np_mean losses) else none := by
  simp [print_progress, Nat.dvd_iff_mod_eq_zero]

theorem C7_print_progress_witness :
    print_progress 5 10 [1, 2]
      = if 5 ∣ 10 then some (10, np_mean [1, 2]) else none :=
  C7_print_progress 5 10 [1, 2] (by decide)

/-- Modelled from the spec: the state of the `ed.MFVI` inference run — the
global generator state and the current variational parameters. -/
structure MFVI where
  rng : RngState
  variational : MFGaussian
deriving Repr, DecidableEq

/-- Modelled from the spec: one iteration of `inference.run` — draw
`n_minibatch` weight samples from the variational family by reparameterization,
evaluate `model.log_prob(data, samples)`, form a gradient estimate
(`gradEst`, a deterministic function of the samples, the losses and the
current parameters), and apply one clipped parameter update. -/
def MFVI.step (stdDraw : Nat → Nat → ℚ)
    (gradEst : List (List ℚ) → List ℚ → MFGaussian → List ℚ × List ℚ)
    (model : LinearModel) (data : List (List ℚ)) (n_minibatch : Nat)
    (st : MFVI) : MFVI :=
  let nv := st.variational.num_vars
  let zs := (List.range n_minibatch).map (fun i =>
    (List.range nv).map (fun j =>
      st.variational.m.getD j 0
        + st.variational.s.getD j 0 * stdDraw st.rng.seed (st.rng.pos + i * nv + j)))
  let losses := model.log_prob data zs
  let g := gradEst zs losses st.variational
  ⟨⟨st.rng.seed, st.rng.pos + n_minibatch * nv⟩, st.variational.update g.1 g.2⟩

/-- Modelled from the spec: `inference.run(n_iter, ...)` preceded by
`ed.set_seed(seed)` — the trajectory of inference states over `n_iter`
iterations; `ambient` is the generator state left by whatever ran before the
seeding. -/
def MFVI.run (stdDraw : Nat → Nat → ℚ)
    (gradEst : List (List ℚ) → List ℚ → MFGaussian → List ℚ × List ℚ)
    (model : LinearModel) (data : List (List ℚ)) (n_minibatch n_iter : Nat)
    (ambient : RngState) (seed : Nat) (v0 : MFGaussian) : List MFVI :=
  (List.range n_iter).scanl
    (fun st _ => MFVI.step stdDraw gradEst model data n_minibatch st)
    ⟨set_seed seed, v0⟩

/-- C8: two runs with the same seed and the same hyperparameters (model, data,
minibatch size, iteration count, initial variational parameters) produce the
same (mean, std) variational-parameter trajectory at every iteration,
whatever generator state each run started from. -/
theorem C8_run_deterministic (stdDraw : Nat → Nat → ℚ)
    (gradEst : List (List ℚ) → List ℚ → MFGaussian → List ℚ × List ℚ)
    (model : LinearModel) (data : List (List ℚ)) (n_minibatch n_iter : Nat)
    (a1 a2 : RngState) (seed : Nat) (v0 : MFGaussian) :
    (MFVI.run stdDraw gradEst model data n_minibatch n_iter a1 seed v0).map
        (fun st => (st.variational.m, st.variational.s))
      = (MFVI.run stdDraw gradEst model data n_minibatch n_iter a2 seed v0).map
        (fun st => (st.variational.m, st.variational.s)) := rfl

end BLR
